import Mathlib

/-!
Shallow embedding of the litestream shadow-WAL capture engine (src/db.go)
with proofs about its checkpoint policy, frame-copy procedure, verification
step, pruning, shadow-WAL readers and restore-option validation.

File sizes and offsets are Go `int64` values, embedded as `Int`; Go integer
division on nonnegative `int64` operands truncates toward zero, embedded as
`Int.tdiv`.  File contents are byte lists (`List Nat`, one entry per byte).
-/

namespace Litestream

/-! Definitions: the shallow embedding of src/db.go and, for refinement
claims, the claim-side policies written from the spec text. -/

/-- Size of the 32-byte WAL header.  Constant `WALHeaderSize` lives in
litestream.go (not part of src); the value is fixed by the spec, which
describes the header as the 32-byte prefix of the WAL. -/
def WALHeaderSize : Int := 32

/-- Size of the 24-byte WAL frame header.  Constant `WALFrameHeaderSize`
lives in litestream.go (not part of src); the value is fixed by the spec,
which describes frames as `24 + page_size` bytes. -/
def WALFrameHeaderSize : Int := 24

/-- Maximum possible WAL index (src/db.go line 38: `0x7FFFFFFF`). -/
def MaxIndex : Int := 0x7FFFFFFF

/-- Embedding of `frameAlign` (src/db.go lines 1161-1174): returns a
frame-aligned offset, or zero if the offset is below the WAL header size.
Go division of nonnegative `int64` values truncates toward zero, hence
`Int.tdiv`. -/
def frameAlign (offset : Int) (pageSize : Int) : Int :=
  if offset < WALHeaderSize then 0
  else
    let frameSize := WALFrameHeaderSize + pageSize
    let frameN := (offset - WALHeaderSize).tdiv frameSize
    frameN * frameSize + WALHeaderSize

/-- Frame alignment specialized to natural-number sizes (list lengths). -/
def frameAlignN (offset : Nat) (pageSize : Nat) : Nat :=
  if offset < 32 then 0
  else ((offset - 32) / (24 + pageSize)) * (24 + pageSize) + 32

/-- Checkpoint modes used by the Sync decision (src/db.go lines 762-764 use
the passive and restart modes; truncate is restore-only and not part of the
tick policy). -/
inductive CheckpointMode where
  | passive
  | restart
deriving DecidableEq, Repr

/-- Modelled from the spec: `calcWALSize` lives in litestream.go, which is
absent from src.  The spec defines `wal_pages(s) = (s - 32) / (p + 24)`;
`calcWALSize` is its inverse, the byte size of a WAL holding `n` full pages:
header plus `n` frames. -/
def calcWALSize (pageSize : Int) (n : Int) : Int :=
  WALHeaderSize + (WALFrameHeaderSize + pageSize) * n

/-- Time-based part of the third checkpoint condition (src/db.go line 767):
the DB modification time is set (the Go `time.Time` zero value maps to
`none`) and the time elapsed since it strictly exceeds the interval. -/
def timeSinceExceeds (now interval : Int) (dbModTime : Option Int) : Bool :=
  match dbModTime with
  | none => false
  | some t => decide (interval < now - t)

/-- Embedding of the checkpoint decision of a Sync tick (src/db.go lines
759-769): restart when `MaxCheckpointPageN > 0` and the new WAL size reaches
`calcWALSize pageSize MaxCheckpointPageN`; else passive when it reaches
`calcWALSize pageSize MinCheckpointPageN`; else passive when
`CheckpointInterval > 0`, the DB mtime is set and stale, and the size
strictly exceeds `calcWALSize pageSize 1`; else no checkpoint. -/
def syncCheckpointDecision (maxPageN minPageN interval pageSize newWALSize now : Int)
    (dbModTime : Option Int) : Option CheckpointMode :=
  if 0 < maxPageN ∧ calcWALSize pageSize maxPageN ≤ newWALSize then
    some CheckpointMode.restart
  else if calcWALSize pageSize minPageN ≤ newWALSize then
    some CheckpointMode.passive
  else if 0 < interval ∧ timeSinceExceeds now interval dbModTime = true ∧
      calcWALSize pageSize 1 < newWALSize then
    some CheckpointMode.passive
  else
    none

/-- Number of WAL pages in a WAL of size `s` as claim C1 words it:
`wal_pages(s) = (s - 32) / (page_size + 24)` with floor division. -/
def walPages (pageSize s : Int) : Int := (s - 32) / (pageSize + 24)

/-- Checkpoint policy exactly as claim C1 states it, written from the claim
sentence for comparison with `syncCheckpointDecision`; its third branch
requires only `wal_pages ≥ 1`. -/
def claimCheckpointDecision (maxPageN minPageN interval pageSize newWALSize now : Int)
    (dbModTime : Option Int) : Option CheckpointMode :=
  if 0 < maxPageN ∧ maxPageN ≤ walPages pageSize newWALSize then
    some CheckpointMode.restart
  else if minPageN ≤ walPages pageSize newWALSize then
    some CheckpointMode.passive
  else if 0 < interval ∧ timeSinceExceeds now interval dbModTime = true ∧
      1 ≤ walPages pageSize newWALSize then
    some CheckpointMode.passive
  else
    none

/-- Checkpoint policy as claim C1 must be amended: the third branch fires
only when the new WAL size strictly exceeds the size of a one-page WAL
(`32 + (pageSize + 24)`), not already at `wal_pages ≥ 1`. -/
def amendedCheckpointDecision (maxPageN minPageN interval pageSize newWALSize now : Int)
    (dbModTime : Option Int) : Option CheckpointMode :=
  if 0 < maxPageN ∧ maxPageN ≤ walPages pageSize newWALSize then
    some CheckpointMode.restart
  else if minPageN ≤ walPages pageSize newWALSize then
    some CheckpointMode.passive
  else if 0 < interval ∧ timeSinceExceeds now interval dbModTime = true ∧
      32 + (pageSize + 24) < newWALSize then
    some CheckpointMode.passive
  else
    none

/-- Big-endian 32-bit read of the four bytes starting at `off`
(Go `binary.BigEndian.Uint32`); missing bytes read as zero. -/
def u32BE (b : List Nat) (off : Nat) : Nat :=
  b.getD off 0 * 2 ^ 24 + b.getD (off + 1) 0 * 2 ^ 16 +
    b.getD (off + 2) 0 * 2 ^ 8 + b.getD (off + 3) 0

/-- Read `n` bytes at byte offset `off` of `data`; `none` when the offset is
negative or the read would pass end of file (Go `ReadAt` errors in both
cases). -/
def readBytesAt (data : List Nat) (off : Int) (n : Nat) : Option (List Nat) :=
  if 0 ≤ off ∧ off.toNat + n ≤ data.length then
    some ((data.drop off.toNat).take n)
  else
    none

/-- Embedding of `readLastChecksumFrom` (src/db.go lines 1213-1231): the
stored checksum that seeds the running checksum in `copyToShadowWAL`.  The
read offset is the header checksum field (byte 24) unless the raw file size
exceeds the 32-byte header, in which case it is byte 16 of the last full
frame, computed from the frame-aligned size. -/
def readLastChecksumFrom (data : List Nat) (pageSize : Nat) : Option (Nat × Nat) :=
  let offset : Int :=
    if (data.length : Int) > WALHeaderSize then
      frameAlign (data.length : Int) (pageSize : Int) - (pageSize : Int) -
        WALFrameHeaderSize + 16
    else 24
  match readBytesAt data offset 8 with
  | none => none
  | some b => some (u32BE b 0, u32BE b 4)

/-- Embedding of `headerByteOrder` (src/db.go lines 1783-1793): the
big-endian magic `0x377f0682` selects little-endian checksumming, the magic
`0x377f0683` selects big-endian, anything else is an error.  `true` stands
for big-endian. -/
def headerByteOrder (hdr : List Nat) : Option Bool :=
  if u32BE hdr 0 = 0x377f0682 then some false
  else if u32BE hdr 0 = 0x377f0683 then some true
  else none

/-- Fuel-driven splitting of a byte stream into successive full frames of
`fs` bytes each; a trailing short read is discarded, mirroring how the copy
loop's `io.ReadFull` stops at end of file or at a partial page. -/
def chunkFramesAux (fs : Nat) : Nat → List Nat → List (List Nat)
  | 0, _ => []
  | Nat.succ fuel, data =>
    if 0 < fs ∧ fs ≤ data.length then
      data.take fs :: chunkFramesAux fs fuel (data.drop fs)
    else []

/-- Full frames of `fs` bytes available in `data`, in order. -/
def chunkFrames (fs : Nat) (data : List Nat) : List (List Nat) :=
  chunkFramesAux fs data.length data

/-- Embedding of the read loop of `copyToShadowWAL` (src/db.go lines
1038-1075): walk the frames, stopping at a frame whose salts differ from the
shadow header salts or whose stored checksum differs from the recomputed
running checksum; otherwise advance the cursor and record it as the last
commit size whenever the frame's post-commit database size (bytes 4-7 of the
frame header) is nonzero.  `cs` is the running checksum function
(litestream.go `Checksum`, abstracted as a parameter because that file is
absent from src). -/
def scanFrames (cs : Nat × Nat → List Nat → Nat × Nat) (hsalt0 hsalt1 : Nat)
    (frames : List (List Nat)) (chk : Nat × Nat) (tmpSz lastCommit : Nat) : Nat :=
  match frames with
  | [] => lastCommit
  | buf :: rest =>
    if u32BE buf 8 = hsalt0 ∧ u32BE buf 12 = hsalt1 then
      if (cs (cs chk (buf.take 8)) (buf.drop 24)).1 = u32BE buf 16 ∧
          (cs (cs chk (buf.take 8)) (buf.drop 24)).2 = u32BE buf 20 then
        if u32BE buf 4 ≠ 0 then
          scanFrames cs hsalt0 hsalt1 rest (cs (cs chk (buf.take 8)) (buf.drop 24))
            (tmpSz + buf.length) (tmpSz + buf.length)
        else
          scanFrames cs hsalt0 hsalt1 rest (cs (cs chk (buf.take 8)) (buf.drop 24))
            (tmpSz + buf.length) lastCommit
      else lastCommit
    else lastCommit

/-- Embedding of `copyToShadowWAL` (src/db.go lines 988-1097): starting from
the frame-aligned size of the shadow file, scan the live WAL for the last
committed frame, then write exactly the bytes up to that commit into the
shadow file at the aligned offset.  Returns the new shadow content and the
returned size (`lastCommitSize`); `none` models the error returns (shadow
shorter than a full header, unknown header magic, failed seed-checksum
read). -/
def copyToShadowWAL (cs : Bool → Nat × Nat → List Nat → Nat × Nat)
    (pageSize : Nat) (wal shadow : List Nat) : Option (List Nat × Nat) :=
  if shadow.length < 32 then none
  else
    match headerByteOrder (shadow.take 32) with
    | none => none
    | some bo =>
      match readLastChecksumFrom shadow pageSize with
      | none => none
      | some chk =>
        some (shadow.take (frameAlignN shadow.length pageSize) ++
            (wal.drop (frameAlignN shadow.length pageSize)).take
              (scanFrames (cs bo) (u32BE (shadow.take 32) 16) (u32BE (shadow.take 32) 20)
                  (chunkFrames (pageSize + 24)
                    (wal.drop (frameAlignN shadow.length pageSize)))
                  chk (frameAlignN shadow.length pageSize)
                  (frameAlignN shadow.length pageSize) -
                frameAlignN shadow.length pageSize) ++
            shadow.drop
              (scanFrames (cs bo) (u32BE (shadow.take 32) 16) (u32BE (shadow.take 32) 20)
                (chunkFrames (pageSize + 24)
                  (wal.drop (frameAlignN shadow.length pageSize)))
                chk (frameAlignN shadow.length pageSize)
                (frameAlignN shadow.length pageSize)),
          scanFrames (cs bo) (u32BE (shadow.take 32) 16) (u32BE (shadow.take 32) 20)
            (chunkFrames (pageSize + 24) (wal.drop (frameAlignN shadow.length pageSize)))
            chk (frameAlignN shadow.length pageSize) (frameAlignN shadow.length pageSize))

/-- Header-only shadow file used in concrete witnesses: little-endian WAL
magic followed by 28 zero bytes. -/
def demoShadow : List Nat := 0x37 :: 0x7f :: 0x06 :: 0x82 :: List.replicate 28 0

/-- Header-only shadow file with a valid little-endian magic and a nonzero
stored header checksum field (bytes 24..31 are 1..8). -/
def demoHeader : List Nat :=
  0x37 :: 0x7f :: 0x06 :: 0x82 :: (List.replicate 20 0 ++ [1, 2, 3, 4, 5, 6, 7, 8])

/-- Replica replication position as far as pruning is concerned: the
generation name and segment index reported by `Replica.LastPos()`.  The
`Pos` type lives in litestream.go (absent from src); modelled from the spec,
which defines a position as `(generation, index, offset)` — the offset plays
no role in `cleanWAL`. -/
structure RPos where
  generation : String
  index : Int
deriving DecidableEq, Repr

/-- Embedding of `cleanGenerations` (src/db.go lines 492-517) over the list
of generation directory names: returns `(kept, deleted)` in directory
order. -/
def cleanGenerations (current : String) (dirs : List String) :
    List String × List String :=
  dirs.foldl
    (fun acc d => if d = current then (acc.1 ++ [d], acc.2) else (acc.1, acc.2 ++ [d]))
    ([], [])

/-- Embedding of the minimum-replicated-index loop of `cleanWAL`
(src/db.go lines 526-536): start from `-1`; for each replica take its last
position, zeroed out when its generation differs from the current one, and
keep the smallest index seen. -/
def minReplicatedIndex (current : String) (replicas : List RPos) : Int :=
  replicas.foldl
    (fun min r =>
      let pos := if r.generation ≠ current then ({ generation := "", index := 0 } : RPos)
        else r
      if min = -1 ∨ pos.index < min then pos.index else min)
    (-1)

/-- Embedding of `cleanWAL` (src/db.go lines 520-561) over the directory
listing of the current generation's `wal/` directory.  Each entry is the
parse result of `ParseWALPath` on the file name (`none` when the name is not
a WAL segment name; `ParseWALPath` lives in litestream.go, modelled from the
spec's `<8-hex-index>.wal` naming).  Returns the entries that remain on
disk. -/
def cleanWAL (current : String) (replicas : List RPos) (files : List (Option Int)) :
    List (Option Int) :=
  let min := minReplicatedIndex current replicas
  if min ≤ 0 then files
  else files.filter (fun f =>
    match f with
    | none => true
    | some idx => decide (min - 1 ≤ idx))

/-- Index of a replica position adjusted to the current generation, as claim
C4 words it: positions from a different generation count as zero. -/
def adjustedIndex (current : String) (r : RPos) : Int :=
  if r.generation = current then r.index else 0

/-- Inputs of one `verify` run (src/db.go lines 822-914), as observed from
the filesystem and the generation pointer: the current generation name
(empty when none), the current shadow WAL index, the live WAL bytes and the
shadow segment bytes (`none` when the segment file does not exist).  File
stats are assumed to succeed; stat errors are returned as errors, not as
reasons. -/
structure VerifyInput where
  generation : String
  index : Int
  wal : List Nat
  shadow : Option (List Nat)

/-- Outcome of `verify`: the reason string (`none` means verification
passed) and the restart flag (live and shadow headers differ). -/
structure VerifyResult where
  reason : Option String
  restart : Bool
deriving DecidableEq, Repr

/-- Embedding of `verify` (src/db.go lines 822-914): the ordered checks that
produce a reason for starting a new generation, using the frame-aligned
shadow size. -/
def verify (pageSize : Nat) (v : VerifyInput) : VerifyResult :=
  if v.generation = "" then ⟨some "no generation exists", false⟩
  else if MaxIndex ≤ v.index then ⟨some "max index exceeded", false⟩
  else
    match v.shadow with
    | none => ⟨some "no shadow wal", false⟩
    | some s =>
      if frameAlignN s.length pageSize < 32 then ⟨some "short shadow wal", false⟩
      else if v.wal.length < frameAlignN s.length pageSize then
        ⟨some "wal truncated by another process", false⟩
      else if frameAlignN s.length pageSize = 32 ∧ v.wal.take 32 ≠ s.take 32 then
        ⟨some "wal header only, mismatched", decide (v.wal.take 32 ≠ s.take 32)⟩
      else if 32 < frameAlignN s.length pageSize ∧
          (v.wal.drop (frameAlignN s.length pageSize - (pageSize + 24))).take
              (pageSize + 24) ≠
            (s.drop (frameAlignN s.length pageSize - (pageSize + 24))).take
              (pageSize + 24) then
        ⟨some "wal overwritten by another process", decide (v.wal.take 32 ≠ s.take 32)⟩
      else ⟨none, decide (v.wal.take 32 ≠ s.take 32)⟩

/-- Reaction of the Sync tick to the verification outcome. -/
inductive SyncAction where
  | startNewGeneration
  | continueCurrent
deriving DecidableEq, Repr

/-- Embedding of the reaction of `Sync` to `verify` (src/db.go lines
737-751): a nonempty reason starts a new generation instead of failing the
tick; an empty reason continues on the current generation. -/
def syncReaction (r : Option String) : SyncAction :=
  match r with
  | some _ => SyncAction.startNewGeneration
  | none => SyncAction.continueCurrent

/-- Reader over a shadow WAL segment (src/db.go lines 1176-1205): segment
index, current offset and remaining byte count. -/
structure WALReaderState where
  index : Int
  offset : Int
  n : Int
deriving DecidableEq, Repr

/-- Errors surfaced by the shadow WAL readers: a missing segment file
(`os.IsNotExist` on open), an offset beyond the frame-aligned size, and end
of stream (`io.EOF`). -/
inductive ReaderErr where
  | notExist
  | offsetTooHigh
  | eof
deriving DecidableEq, Repr

/-- Embedding of `shadowWALReader` (src/db.go lines 1123-1159): open the
segment file at `index` under the position's generation (`segSize` gives the
raw size of each segment file of that generation, `none` when the file does
not exist), fail when the requested offset exceeds the frame-aligned file
size, and otherwise return a reader whose remaining count is the aligned
size minus the offset. -/
def shadowWALReader (pageSize : Nat) (segSize : Int → Option Nat) (index offset : Int) :
    Except ReaderErr WALReaderState :=
  match segSize index with
  | none => Except.error ReaderErr.notExist
  | some sz =>
    if (frameAlignN sz pageSize : Int) < offset then Except.error ReaderErr.offsetTooHigh
    else Except.ok ⟨index, offset, (frameAlignN sz pageSize : Int) - offset⟩

/-- Embedding of `ShadowWALReader` (src/db.go lines 1103-1120): open at the
requested position; if the reader has data, return it; otherwise open the
next index at offset zero, translating a missing next segment into end of
stream. -/
def ShadowWALReaderAt (pageSize : Nat) (segSize : Int → Option Nat) (index offset : Int) :
    Except ReaderErr WALReaderState :=
  match shadowWALReader pageSize segSize index offset with
  | Except.error e => Except.error e
  | Except.ok r =>
    if 0 < r.n then Except.ok r
    else
      match shadowWALReader pageSize segSize (index + 1) 0 with
      | Except.error ReaderErr.notExist => Except.error ReaderErr.eof
      | other => other

/-- Largest 64-bit signed integer, Go `math.MaxInt64`, used by the restore
options as the "index unset" sentinel. -/
def maxInt64 : Int := 9223372036854775807

/-- Restore options relevant to validation (src/db.go lines 1666-1694):
output path, generation, index (sentinel `maxInt64` means unset) and
point-in-time timestamp (`none` models the Go zero time). -/
structure RestoreOptionsV where
  outputPath : String
  generation : String
  index : Int
  timestamp : Option Int
deriving DecidableEq, Repr

/-- Embedding of `NewRestoreOptions` (src/db.go lines 1697-1701): default
options with the index set to the unset sentinel. -/
def NewRestoreOptions : RestoreOptionsV :=
  { outputPath := "", generation := "", index := maxInt64, timestamp := none }

/-- Embedding of the option validation at the top of `RestoreReplica`
(src/db.go lines 1361-1369), which runs before any restore work touches the
filesystem or the replica: the error produced, or `none` when validation
passes and the restore proceeds. -/
def validateRestoreOptions (opt : RestoreOptionsV) : Option String :=
  if opt.outputPath = "" then some "output path required"
  else if opt.generation = "" ∧ opt.index ≠ maxInt64 then
    some "must specify generation when restoring to index"
  else if opt.index ≠ maxInt64 ∧ opt.timestamp ≠ none then
    some "cannot specify index & timestamp to restore"
  else none

/-! Theorems settling the claims, with their supporting lemmas. -/

/-- Defining equation of `frameAlign` with the intermediate bindings expanded. -/
theorem frameAlign_eq (offset pageSize : Int) :
    frameAlign offset pageSize =
      if offset < 32 then 0
      else ((offset - 32).tdiv (24 + pageSize)) * (24 + pageSize) + 32 := rfl

/-- The `Int` and `Nat` versions of frame alignment agree on casts. -/
theorem frameAlign_natCast (n p : Nat) :
    frameAlign (n : Int) (p : Int) = (frameAlignN n p : Int) := by
  rw [frameAlign_eq]
  unfold frameAlignN
  by_cases h : n < 32
  · rw [if_pos (by exact_mod_cast h), if_pos h, Int.natCast_zero]
  · have h32 : (32 : Int) ≤ (n : Int) := by exact_mod_cast Nat.le_of_not_lt h
    rw [if_neg (by omega), if_neg h]
    have hsub : (n : Int) - 32 = ((n - 32 : Nat) : Int) := by
      push_cast [Nat.le_of_not_lt h]; ring
    have hdiv : ((n : Int) - 32).tdiv (24 + (p : Int)) = (((n - 32) / (24 + p) : Nat) : Int) := by
      rw [hsub]
      have hc : ((24 + p : Nat) : Int) = 24 + (p : Int) := by push_cast; ring
      rw [← hc, ← Int.ofNat_tdiv]
    rw [hdiv]
    push_cast
    ring

/-- Frame alignment never exceeds its input (for nonnegative sizes). -/
theorem frameAlignN_le (n p : Nat) : frameAlignN n p ≤ n := by
  unfold frameAlignN
  by_cases h : n < 32
  · simp [h]
  · rw [if_neg h]
    have hd : ((n - 32) / (24 + p)) * (24 + p) ≤ n - 32 := Nat.div_mul_le_self _ _
    omega

/-- C7: for every file size `s ≥ 0` and page size `p ≥ 0`, `frameAlign s p`
equals `0` when `s < 32` and otherwise `32 + ((s - 32) / (p + 24)) * (p + 24)`
with floor division; the function is pure and total over that domain. -/
theorem frameAlign_formula (s p : Int) (hs : 0 ≤ s) (hp : 0 ≤ p) :
    frameAlign s p = if s < 32 then 0 else 32 + ((s - 32) / (p + 24)) * (p + 24) := by
  rw [frameAlign_eq]
  by_cases h : s < 32
  · simp [h]
  · rw [if_neg h, if_neg h]
    have h1 : (0 : Int) ≤ s - 32 := by omega
    have h2 : (0 : Int) ≤ 24 + p := by omega
    rw [Int.tdiv_eq_ediv h1 h2]
    have hcomm : (24 : Int) + p = p + 24 := by ring
    rw [hcomm]
    ring

/-- Witness for C7 at `s = 4153`, `p = 4096`: one full frame plus one byte
aligns down to `32 + 4120 = 4152`. -/
theorem frameAlign_formula_witness :
    (0 : Int) ≤ 4153 ∧ (0 : Int) ≤ 4096 ∧
      frameAlign 4153 4096 =
        if (4153 : Int) < 32 then 0 else 32 + (((4153 : Int) - 32) / (4096 + 24)) * (4096 + 24) :=
  ⟨by norm_num, by norm_num, frameAlign_formula 4153 4096 (by norm_num) (by norm_num)⟩

/-- C8: frame alignment is idempotent: for `s ≥ 0` and `p ≥ 0`,
`frameAlign (frameAlign s p) p = frameAlign s p`. -/
theorem frameAlign_idempotent (s p : Int) (hs : 0 ≤ s) (hp : 0 ≤ p) :
    frameAlign (frameAlign s p) p = frameAlign s p := by
  have hfs : (0 : Int) < 24 + p := by omega
  rw [frameAlign_eq, frameAlign_eq]
  by_cases h : s < 32
  · simp [h]
  · rw [if_neg h]
    set k := (s - 32).tdiv (24 + p) with hk
    have hk0 : 0 ≤ k := Int.tdiv_nonneg (by omega) (by omega)
    have hge : ¬ (k * (24 + p) + 32 < 32) := by nlinarith
    rw [if_neg hge]
    have hsub : (k * (24 + p) + 32 - 32) = k * (24 + p) := by ring
    rw [hsub, Int.mul_tdiv_cancel k (by omega)]

/-- Witness for C8 at `s = 10000`, `p = 4096`. -/
theorem frameAlign_idempotent_witness :
    (0 : Int) ≤ 10000 ∧ (0 : Int) ≤ 4096 ∧
      frameAlign (frameAlign 10000 4096) 4096 = frameAlign 10000 4096 :=
  ⟨by norm_num, by norm_num, frameAlign_idempotent 10000 4096 (by norm_num) (by norm_num)⟩

/-- Threshold comparisons through `calcWALSize` agree with the claim's
`wal_pages` comparisons. -/
theorem calcWALSize_le_iff (p n s : Int) (hp : 0 ≤ p) :
    calcWALSize p n ≤ s ↔ n ≤ walPages p s := by
  unfold calcWALSize walPages WALHeaderSize WALFrameHeaderSize
  rw [Int.le_ediv_iff_mul_le (by omega : (0 : Int) < p + 24)]
  constructor <;> intro h <;> nlinarith

/-- Counterexample to C1 as stated: with a 4096-byte page size, a just-copied
shadow WAL of exactly one page (4152 bytes), `MaxCheckpointPageN = 0`,
`MinCheckpointPageN = 1000`, a 60-unit interval and a stale DB mtime, the
claim prescribes a passive checkpoint (`wal_pages = 1 ≥ 1`) but the code
issues none, because 4152 does not strictly exceed `calcWALSize 4096 1 =
4152`. -/
theorem syncCheckpoint_claim_counterexample :
    syncCheckpointDecision 0 1000 60 4096 4152 1000 (some 0) = none ∧
      claimCheckpointDecision 0 1000 60 4096 4152 1000 (some 0) =
        some CheckpointMode.passive := by
  constructor <;> decide

/-- C1 (amended): the Sync tick checkpoint decision equals the claimed policy
once the third branch is tightened to require the new WAL size to strictly
exceed the size of a one-page WAL. -/
theorem syncCheckpoint_amended (maxPageN minPageN interval pageSize newWALSize now : Int)
    (dbModTime : Option Int) (hp : 0 ≤ pageSize) :
    syncCheckpointDecision maxPageN minPageN interval pageSize newWALSize now dbModTime =
      amendedCheckpointDecision maxPageN minPageN interval pageSize newWALSize now dbModTime := by
  unfold syncCheckpointDecision amendedCheckpointDecision
  have h1 : (0 < maxPageN ∧ calcWALSize pageSize maxPageN ≤ newWALSize) ↔
      (0 < maxPageN ∧ maxPageN ≤ walPages pageSize newWALSize) := by
    rw [calcWALSize_le_iff _ _ _ hp]
  have h2 : (calcWALSize pageSize minPageN ≤ newWALSize) ↔
      (minPageN ≤ walPages pageSize newWALSize) := calcWALSize_le_iff _ _ _ hp
  have h3 : calcWALSize pageSize 1 = 32 + (pageSize + 24) := by
    unfold calcWALSize WALHeaderSize WALFrameHeaderSize; ring
  rw [h3]
  simp only [h1, h2]

/-- Witness for the amended C1 theorem at a concrete input: two full pages
with a stale mtime trigger a passive checkpoint in both formulations. -/
theorem syncCheckpoint_amended_witness :
    (0 : Int) ≤ 4096 ∧
      syncCheckpointDecision 0 1000 60 4096 8272 1000 (some 0) =
        amendedCheckpointDecision 0 1000 60 4096 8272 1000 (some 0) :=
  ⟨by norm_num, syncCheckpoint_amended 0 1000 60 4096 8272 1000 (some 0) (by norm_num)⟩

/-- Reading a 32-bit value out of an in-range slice reads it from the
underlying file. -/
theorem u32BE_drop_take (data : List Nat) (off n j : Nat) (h : j + 4 ≤ n) :
    u32BE ((data.drop off).take n) j = u32BE data (off + j) := by
  unfold u32BE
  have hget : ∀ i : Nat, i < n →
      ((data.drop off).take n).getD i 0 = data.getD (off + i) 0 := by
    intro i hi
    rw [List.getD_eq_getElem?_getD, List.getD_eq_getElem?_getD,
      List.getElem?_take, if_pos hi, List.getElem?_drop]
  rw [hget j (by omega), hget (j + 1) (by omega), hget (j + 2) (by omega),
    hget (j + 3) (by omega)]
  have e1 : off + (j + 1) = off + j + 1 := by omega
  have e2 : off + (j + 2) = off + j + 2 := by omega
  have e3 : off + (j + 3) = off + j + 3 := by omega
  rw [e1, e2, e3]

/-- Counterexample to C2 as stated: a header-only shadow file (raw size 32,
frame-aligned size 32) whose stored header checksum field is nonzero seeds
the running checksum with that stored value, not with `(0, 0)`. -/
theorem readLastChecksum_claim_counterexample :
    headerByteOrder demoHeader = some false ∧
      frameAlignN demoHeader.length 4096 = 32 ∧
      readLastChecksumFrom demoHeader 4096 ≠ some (0, 0) ∧
      readLastChecksumFrom demoHeader 4096 = some (16909060, 84281096) := by
  refine ⟨by decide, by decide, ?_, ?_⟩ <;> decide

/-- C2 (amended): the seed checksum of the frame-copy procedure is the
checksum stored in the shadow header checksum field (bytes 24..31) when the
shadow is header-only (raw size exactly 32), and the checksum stored at
byte 16 of the shadow file's last full frame when at least one full frame
exists past the header. -/
theorem readLastChecksum_amended (data : List Nat) (pageSize : Nat) :
    (data.length = 32 →
      readLastChecksumFrom data pageSize = some (u32BE data 24, u32BE data 28)) ∧
    (∀ k, k = (data.length - 32) / (24 + pageSize) → 32 < data.length → 1 ≤ k →
      readLastChecksumFrom data pageSize =
        some (u32BE data (32 + (k - 1) * (24 + pageSize) + 16),
          u32BE data (32 + (k - 1) * (24 + pageSize) + 20))) := by
  constructor
  · intro hlen
    unfold readLastChecksumFrom
    rw [if_neg (by rw [hlen]; unfold WALHeaderSize; omega)]
    unfold readBytesAt
    dsimp only
    rw [if_pos (show (0 : Int) ≤ 24 ∧ (24 : Int).toNat + 8 ≤ data.length by omega)]
    dsimp only
    have h0 : u32BE ((data.drop (24 : Int).toNat).take 8) 0 = u32BE data 24 := by
      have := u32BE_drop_take data 24 8 0 (by omega)
      simpa using this
    have h4 : u32BE ((data.drop (24 : Int).toNat).take 8) 4 = u32BE data 28 := by
      have := u32BE_drop_take data 24 8 4 (by omega)
      simpa using this
    rw [h0, h4]
  · intro k hk hlen hk1
    rcases Nat.exists_eq_add_of_le hk1 with ⟨j, hkj⟩
    have hfs : 0 < 24 + pageSize := by omega
    have halign : frameAlignN data.length pageSize = k * (24 + pageSize) + 32 := by
      unfold frameAlignN
      rw [if_neg (by omega), ← hk]
    have hoff : frameAlign (data.length : Int) (pageSize : Int) - (pageSize : Int) -
        WALFrameHeaderSize + 16 = ((j * (24 + pageSize) + 48 : Nat) : Int) := by
      rw [frameAlign_natCast, halign, hkj]
      unfold WALFrameHeaderSize
      push_cast
      ring
    have hle : frameAlignN data.length pageSize ≤ data.length := frameAlignN_le _ _
    have hbound : j * (24 + pageSize) + 48 + 8 ≤ data.length := by
      rw [halign, hkj] at hle
      have : (1 + j) * (24 + pageSize) = 24 + pageSize + j * (24 + pageSize) := by ring
      omega
    unfold readLastChecksumFrom
    rw [if_pos (by unfold WALHeaderSize; omega), hoff]
    unfold readBytesAt
    dsimp only
    rw [if_pos (show (0 : Int) ≤ ((j * (24 + pageSize) + 48 : Nat) : Int) ∧
      ((j * (24 + pageSize) + 48 : Nat) : Int).toNat + 8 ≤ data.length by
        rw [Int.toNat_natCast]; exact ⟨by positivity, hbound⟩)]
    rw [Int.toNat_natCast]
    dsimp only
    have h0 := u32BE_drop_take data (j * (24 + pageSize) + 48) 8 0 (by omega)
    have h4 := u32BE_drop_take data (j * (24 + pageSize) + 48) 8 4 (by omega)
    rw [h0, h4]
    have e16 : 32 + (k - 1) * (24 + pageSize) + 16 = j * (24 + pageSize) + 48 + 0 := by
      rw [hkj]; simp; ring
    have e20 : 32 + (k - 1) * (24 + pageSize) + 20 = j * (24 + pageSize) + 48 + 4 := by
      rw [hkj]; simp; ring
    rw [e16, e20]

/-- Witness for the amended C2 theorem: a header-only file of 32 sevens and a
one-frame file of 56 sevens with page size 0. -/
theorem readLastChecksum_amended_witness :
    readLastChecksumFrom (List.replicate 32 7) 0 =
        some (u32BE (List.replicate 32 7) 24, u32BE (List.replicate 32 7) 28) ∧
      readLastChecksumFrom (List.replicate 56 7) 0 =
        some (u32BE (List.replicate 56 7) (32 + (1 - 1) * (24 + 0) + 16),
          u32BE (List.replicate 56 7) (32 + (1 - 1) * (24 + 0) + 20)) :=
  ⟨(readLastChecksum_amended (List.replicate 32 7) 0).1 (by decide),
    (readLastChecksum_amended (List.replicate 56 7) 0).2 1 (by decide) (by decide)
      (by decide)⟩

/-- Each full frame produced by chunking has exactly `fs` bytes. -/
theorem chunkFramesAux_mem_length (fs : Nat) :
    ∀ (fuel : Nat) (data : List Nat) (f : List Nat),
      f ∈ chunkFramesAux fs fuel data → f.length = fs := by
  intro fuel
  induction fuel with
  | zero => intro data f hf; simp [chunkFramesAux] at hf
  | succ fuel ih =>
    intro data f hf
    unfold chunkFramesAux at hf
    by_cases hc : 0 < fs ∧ fs ≤ data.length
    · rw [if_pos hc] at hf
      rcases List.mem_cons.mp hf with hf | hf
      · rw [hf, List.length_take]; omega
      · exact ih _ _ hf
    · rw [if_neg hc] at hf
      simp at hf

/-- Chunking never produces more frames than fit into the data. -/
theorem chunkFramesAux_total_le (fs : Nat) :
    ∀ (fuel : Nat) (data : List Nat),
      fs * (chunkFramesAux fs fuel data).length ≤ data.length := by
  intro fuel
  induction fuel with
  | zero => intro data; simp [chunkFramesAux]
  | succ fuel ih =>
    intro data
    unfold chunkFramesAux
    by_cases hc : 0 < fs ∧ fs ≤ data.length
    · rw [if_pos hc]
      have h := ih (data.drop fs)
      rw [List.length_drop] at h
      rw [List.length_cons, Nat.mul_succ]
      omega
    · rw [if_neg hc]; simp

/-- The `i`-th chunk is the `fs`-byte slice of the data starting at
`i * fs`. -/
theorem chunkFramesAux_getD (fs : Nat) :
    ∀ (fuel : Nat) (data : List Nat) (i : Nat),
      i < (chunkFramesAux fs fuel data).length →
      (chunkFramesAux fs fuel data).getD i [] = (data.drop (i * fs)).take fs := by
  intro fuel
  induction fuel with
  | zero => intro data i hi; simp [chunkFramesAux] at hi
  | succ fuel ih =>
    intro data i hi
    unfold chunkFramesAux at hi ⊢
    by_cases hc : 0 < fs ∧ fs ≤ data.length
    · rw [if_pos hc] at hi ⊢
      match i with
      | 0 => simp
      | Nat.succ j =>
        rw [List.length_cons] at hi
        have hj : j < (chunkFramesAux fs fuel (data.drop fs)).length := by omega
        rw [List.getD_cons_succ, ih (data.drop fs) j hj, List.drop_drop]
        have he : Nat.succ j * fs = fs + j * fs := by rw [Nat.succ_mul]; ring
        rw [he]
    · rw [if_neg hc] at hi
      simp at hi

/-- Reading a 32-bit value from a dropped prefix reads it from the
underlying list. -/
theorem u32BE_drop (l : List Nat) (o m : Nat) :
    u32BE (l.drop o) m = u32BE l (o + m) := by
  unfold u32BE
  have hget : ∀ i : Nat, (l.drop o).getD i 0 = l.getD (o + i) 0 := by
    intro i
    rw [List.getD_eq_getElem?_getD, List.getD_eq_getElem?_getD, List.getElem?_drop]
  rw [hget m, hget (m + 1), hget (m + 2), hget (m + 3)]
  have e1 : o + (m + 1) = o + m + 1 := by omega
  have e2 : o + (m + 2) = o + m + 2 := by omega
  have e3 : o + (m + 3) = o + m + 3 := by omega
  rw [e1, e2, e3]

/-- The copy loop either keeps the initial commit cursor or moves it just
past some scanned frame whose post-commit database size field is nonzero. -/
theorem scanFrames_characterization (cs : Nat × Nat → List Nat → Nat × Nat)
    (s0 s1 fs : Nat) (frames : List (List Nat)) :
    (∀ f ∈ frames, f.length = fs) →
    ∀ chk tmpSz lastCommit,
      scanFrames cs s0 s1 frames chk tmpSz lastCommit = lastCommit ∨
      ∃ i, i < frames.length ∧
        scanFrames cs s0 s1 frames chk tmpSz lastCommit = tmpSz + (i + 1) * fs ∧
        u32BE (frames.getD i []) 4 ≠ 0 := by
  induction frames with
  | nil => intro _ chk tmpSz lastCommit; left; rfl
  | cons buf rest ih =>
    intro hlen chk tmpSz lastCommit
    unfold scanFrames
    by_cases hsalt : u32BE buf 8 = s0 ∧ u32BE buf 12 = s1
    · rw [if_pos hsalt]
      by_cases hcs : (cs (cs chk (buf.take 8)) (buf.drop 24)).1 = u32BE buf 16 ∧
          (cs (cs chk (buf.take 8)) (buf.drop 24)).2 = u32BE buf 20
      · rw [if_pos hcs]
        have hbl : buf.length = fs := hlen buf (by simp)
        have hrest : ∀ f ∈ rest, f.length = fs := fun f hf => hlen f (by simp [hf])
        by_cases hcommit : u32BE buf 4 ≠ 0
        · rw [if_pos hcommit]
          rcases ih hrest (cs (cs chk (buf.take 8)) (buf.drop 24))
              (tmpSz + buf.length) (tmpSz + buf.length) with h | ⟨i, hi, heq, hc⟩
          · right
            refine ⟨0, by simp, ?_, by simpa using hcommit⟩
            rw [h, hbl]; ring
          · right
            refine ⟨i + 1, by simp; omega, ?_, by simpa using hc⟩
            rw [heq, hbl]; ring
        · rw [if_neg hcommit]
          rcases ih hrest (cs (cs chk (buf.take 8)) (buf.drop 24))
              (tmpSz + buf.length) lastCommit with h | ⟨i, hi, heq, hc⟩
          · left; exact h
          · right
            refine ⟨i + 1, by simp; omega, ?_, by simpa using hc⟩
            rw [heq, hbl]; ring
      · rw [if_neg hcs]; left; rfl
    · rw [if_neg hsalt]; left; rfl

/-- C3: a successful `copyToShadowWAL` on a frame-aligned shadow file
appends to it exactly `lastCommitSize - origSize` bytes taken verbatim from
the live WAL at the same offsets, the new size is the returned
`lastCommitSize`, the appended region is a whole number of frames, and it is
empty or ends immediately after a frame whose post-commit database size
field is nonzero — the shadow segment ends on a commit boundary and frames
past the last commit are never persisted. -/
theorem copyToShadowWAL_commit_bounded (cs : Bool → Nat × Nat → List Nat → Nat × Nat)
    (pageSize : Nat) (wal shadow ns : List Nat) (sz : Nat)
    (haligned : frameAlignN shadow.length pageSize = shadow.length)
    (h : copyToShadowWAL cs pageSize wal shadow = some (ns, sz)) :
    shadow.length ≤ sz ∧
      ns = shadow ++ (wal.drop shadow.length).take (sz - shadow.length) ∧
      ns.length = sz ∧
      (pageSize + 24) ∣ (sz - shadow.length) ∧
      (sz = shadow.length ∨ u32BE wal (sz - (pageSize + 24) + 4) ≠ 0) := by
  unfold copyToShadowWAL at h
  by_cases h32 : shadow.length < 32
  · rw [if_pos h32] at h; exact absurd h (by simp)
  rw [if_neg h32] at h
  rcases hbo : headerByteOrder (shadow.take 32) with _ | bo
  · rw [hbo] at h; exact absurd h (by simp)
  rw [hbo] at h
  rcases hchk : readLastChecksumFrom shadow pageSize with _ | chk
  · rw [hchk] at h; exact absurd h (by simp)
  rw [hchk] at h
  rw [haligned] at h
  simp only [Option.some.injEq, Prod.mk.injEq] at h
  obtain ⟨hns, hsz⟩ := h
  set fs := pageSize + 24 with hfs
  set frames := chunkFrames fs (wal.drop shadow.length) with hframes
  have hmem : ∀ f ∈ frames, f.length = fs := by
    intro f hf
    rw [hframes] at hf
    exact chunkFramesAux_mem_length fs (wal.drop shadow.length).length
      (wal.drop shadow.length) f hf
  have hchar := scanFrames_characterization (cs bo)
    (u32BE (shadow.take 32) 16) (u32BE (shadow.take 32) 20) fs frames hmem chk
    shadow.length shadow.length
  have htot : fs * frames.length ≤ (wal.drop shadow.length).length := by
    rw [hframes]
    exact chunkFramesAux_total_le fs (wal.drop shadow.length).length
      (wal.drop shadow.length)
  rcases hchar with hkeep | ⟨i, hi, heq, hcommit⟩
  · rw [hkeep] at hns hsz
    subst hsz
    refine ⟨Nat.le_refl _, ?_, ?_, by simp, Or.inl rfl⟩
    · rw [← hns]; simp
    · rw [← hns]; simp
  · set B := (i + 1) * fs with hB
    rw [heq] at hns hsz
    subst hsz
    have hlen_i : B ≤ fs * frames.length := by
      rw [hB, Nat.mul_comm fs frames.length]
      exact Nat.mul_le_mul (by omega) (Nat.le_refl fs)
    have hbound : B ≤ wal.length - shadow.length := by
      have hb := le_trans hlen_i htot
      rw [List.length_drop] at hb
      exact hb
    refine ⟨by omega, ?_, ?_, ?_, ?_⟩
    · rw [← hns,
        List.drop_eq_nil_of_le (show shadow.length ≤ shadow.length + B by omega)]
      simp
    · rw [← hns,
        List.drop_eq_nil_of_le (show shadow.length ≤ shadow.length + B by omega)]
      simp [List.length_take]
      omega
    · have hsub : shadow.length + B - shadow.length = B := by omega
      rw [hsub]
      exact ⟨i + 1, by rw [hB]; ring⟩
    · right
      have hget : frames.getD i [] = ((wal.drop shadow.length).drop (i * fs)).take fs := by
        rw [hframes]
        exact chunkFramesAux_getD fs (wal.drop shadow.length).length
          (wal.drop shadow.length) i (by rw [hframes] at hi; exact hi)
      rw [hget] at hcommit
      rw [u32BE_drop_take (wal.drop shadow.length) (i * fs) fs 4 (by omega)] at hcommit
      rw [u32BE_drop wal shadow.length (i * fs + 4)] at hcommit
      have hBi : B = i * fs + fs := by rw [hB, Nat.add_mul, Nat.one_mul]
      have hidx : shadow.length + B - fs + 4 = shadow.length + (i * fs + 4) := by
        rw [hBi, ← Nat.add_assoc shadow.length (i * fs) fs, Nat.add_sub_cancel,
          Nat.add_assoc]
      rw [hidx]
      exact hcommit

/-- Witness for C3: copying with an empty live tail leaves the header-only
shadow unchanged at size 32. -/
theorem copyToShadowWAL_commit_bounded_witness :
    demoShadow.length ≤ 32 ∧
      demoShadow = demoShadow ++ (demoShadow.drop demoShadow.length).take
        (32 - demoShadow.length) ∧
      demoShadow.length = 32 ∧
      (0 + 24) ∣ (32 - demoShadow.length) ∧
      (32 = demoShadow.length ∨ u32BE demoShadow (32 - (0 + 24) + 4) ≠ 0) :=
  copyToShadowWAL_commit_bounded (fun _ c _ => c) 0 demoShadow demoShadow demoShadow 32
    (by decide) (by decide)

/-- Folding the running-minimum step over nonnegative values from a
nonnegative start yields the least of the start and the values. -/
theorem foldlMin_characterize (l : List Int) :
    ∀ acc : Int, 0 ≤ acc → (∀ x ∈ l, 0 ≤ x) →
      l.foldl (fun a x => if a = -1 ∨ x < a then x else a) acc ∈ acc :: l ∧
        ∀ x ∈ acc :: l, l.foldl (fun a x => if a = -1 ∨ x < a then x else a) acc ≤ x := by
  induction l with
  | nil =>
    intro acc _ _
    refine ⟨by simp, ?_⟩
    intro x hx
    rw [List.mem_singleton] at hx
    simp [hx]
  | cons y ys ih =>
    intro acc hacc hnn
    have hy : 0 ≤ y := hnn y (by simp)
    have hys : ∀ x ∈ ys, 0 ≤ x := fun x hx => hnn x (by simp [hx])
    rw [List.foldl_cons]
    by_cases hlt : acc = -1 ∨ y < acc
    · rw [if_pos hlt]
      have hya : y ≤ acc := by rcases hlt with h | h <;> omega
      obtain ⟨hm, hb⟩ := ih y hy hys
      constructor
      · rcases List.mem_cons.mp hm with h | h
        · exact List.mem_cons.mpr (Or.inr (List.mem_cons.mpr (Or.inl h)))
        · exact List.mem_cons.mpr (Or.inr (List.mem_cons.mpr (Or.inr h)))
      · intro x hx
        rcases List.mem_cons.mp hx with hxa | hx2
        · exact le_trans (hb y (by simp)) (by omega)
        · exact hb x hx2
    · rw [if_neg hlt]
      push_neg at hlt
      obtain ⟨hm, hb⟩ := ih acc hacc hys
      constructor
      · rcases List.mem_cons.mp hm with h | h
        · exact List.mem_cons.mpr (Or.inl h)
        · exact List.mem_cons.mpr (Or.inr (List.mem_cons.mpr (Or.inr h)))
      · intro x hx
        rcases List.mem_cons.mp hx with hxa | hx2
        · rw [hxa]; exact hb acc (by simp)
        · rcases List.mem_cons.mp hx2 with hxy | hxy
          · rw [hxy]; exact le_trans (hb acc (by simp)) (by omega)
          · exact hb x (by simp [hxy])

/-- The fold of `cleanWAL` is the fold of the running-minimum step over the
adjusted indices. -/
theorem minReplicatedIndex_eq_foldl (current : String) (replicas : List RPos) :
    minReplicatedIndex current replicas =
      (replicas.map (adjustedIndex current)).foldl
        (fun a x => if a = -1 ∨ x < a then x else a) (-1) := by
  unfold minReplicatedIndex
  rw [List.foldl_map]
  apply List.foldl_ext
  intro a r _
  by_cases h : r.generation = current <;> simp [adjustedIndex, h]

/-- The fold of `cleanWAL` computes the minimum adjusted index whenever some
replica exists and every adjusted index is nonnegative. -/
theorem minReplicatedIndex_spec (current : String) (replicas : List RPos)
    (hnn : ∀ r ∈ replicas, 0 ≤ adjustedIndex current r) (hne : replicas ≠ []) :
    minReplicatedIndex current replicas ∈ replicas.map (adjustedIndex current) ∧
      ∀ x ∈ replicas.map (adjustedIndex current),
        minReplicatedIndex current replicas ≤ x := by
  rcases replicas with _ | ⟨r, rest⟩
  · exact absurd rfl hne
  have hnn2 : ∀ x ∈ (r :: rest).map (adjustedIndex current), 0 ≤ x := by
    intro x hx
    rw [List.mem_map] at hx
    obtain ⟨r2, hr2, hx2⟩ := hx
    rw [← hx2]
    exact hnn r2 hr2
  rw [minReplicatedIndex_eq_foldl]
  rw [List.map_cons, List.foldl_cons]
  have hstep : (if (-1 : Int) = -1 ∨ adjustedIndex current r < -1 then
      adjustedIndex current r else -1) = adjustedIndex current r := by
    rw [if_pos (Or.inl rfl)]
  rw [hstep]
  have h0 : (0 : Int) ≤ adjustedIndex current r := hnn r (by simp)
  have hys : ∀ x ∈ rest.map (adjustedIndex current), 0 ≤ x := by
    intro x hx
    exact hnn2 x (by simp [hx])
  obtain ⟨hm, hb⟩ := foldlMin_characterize (rest.map (adjustedIndex current))
    (adjustedIndex current r) h0 hys
  exact ⟨hm, hb⟩

/-- Generic shape of the keep/delete fold of `cleanGenerations`. -/
theorem cleanGenerations_foldl (current : String) (dirs : List String) :
    ∀ k d : List String,
      dirs.foldl
          (fun acc x =>
            if x = current then (acc.1 ++ [x], acc.2) else (acc.1, acc.2 ++ [x]))
          (k, d) =
        (k ++ dirs.filter (fun x => decide (x = current)),
          d ++ dirs.filter (fun x => decide ¬x = current)) := by
  induction dirs with
  | nil => intro k d; simp
  | cons x xs ih =>
    intro k d
    rw [List.foldl_cons]
    by_cases h : x = current
    · rw [if_pos h, ih]
      simp [h]
    · rw [if_neg h, ih]
      simp [h]

/-- C4: `cleanGenerations` deletes exactly the generation directories other
than the current one, and `cleanWAL` (given the minimum `M` over all
replicas of the adjusted last-position index, where a position from another
generation counts as zero) deletes nothing when `M ≤ 0` and otherwise
deletes exactly the parseable segment files with index `< M - 1`. -/
theorem clean_prune_spec (current : String) (dirs : List String) (replicas : List RPos)
    (files : List (Option Int)) (M : Int)
    (hmem : M ∈ replicas.map (adjustedIndex current))
    (hmin : ∀ x ∈ replicas.map (adjustedIndex current), M ≤ x)
    (hnn : ∀ r ∈ replicas, 0 ≤ adjustedIndex current r) :
    (cleanGenerations current dirs).1 = dirs.filter (fun d => decide (d = current)) ∧
      (cleanGenerations current dirs).2 = dirs.filter (fun d => decide ¬d = current) ∧
      minReplicatedIndex current replicas = M ∧
      (M ≤ 0 → cleanWAL current replicas files = files) ∧
      (0 < M → cleanWAL current replicas files =
        files.filter (fun f => f.elim true (fun idx => decide (¬idx < M - 1)))) := by
  have hne : replicas ≠ [] := by
    intro hemp
    rw [hemp] at hmem
    simp at hmem
  obtain ⟨hm, hb⟩ := minReplicatedIndex_spec current replicas hnn hne
  have hMeq : minReplicatedIndex current replicas = M :=
    le_antisymm (hb M hmem) (hmin _ hm)
  refine ⟨?_, ?_, hMeq, ?_, ?_⟩
  · unfold cleanGenerations
    rw [cleanGenerations_foldl]
    simp
  · unfold cleanGenerations
    rw [cleanGenerations_foldl]
    simp
  · intro hM0
    unfold cleanWAL
    rw [hMeq, if_pos hM0]
  · intro hM0
    unfold cleanWAL
    rw [hMeq, if_neg (by omega)]
    apply List.filter_congr
    intro f _
    cases f with
    | none => rfl
    | some idx =>
      simp only [Option.elim]
      rw [decide_eq_decide]
      omega

/-- Witness for C4 at a concrete state: two replicas at indices 3 and 5 of
the current generation yield minimum 3, so segments with index below 2 are
deleted and the rest kept. -/
theorem clean_prune_spec_witness :
    (cleanGenerations "g" ["a", "g", "b"]).1 =
        (["a", "g", "b"].filter (fun d => decide (d = "g"))) ∧
      (cleanGenerations "g" ["a", "g", "b"]).2 =
        (["a", "g", "b"].filter (fun d => decide ¬d = "g")) ∧
      minReplicatedIndex "g" [⟨"g", 3⟩, ⟨"g", 5⟩] = 3 ∧
      ((3 : Int) ≤ 0 → cleanWAL "g" [⟨"g", 3⟩, ⟨"g", 5⟩] [some 0, some 1, some 2, none] =
        [some 0, some 1, some 2, none]) ∧
      ((0 : Int) < 3 → cleanWAL "g" [⟨"g", 3⟩, ⟨"g", 5⟩] [some 0, some 1, some 2, none] =
        ([some 0, some 1, some 2, none].filter
          (fun f => f.elim true (fun idx => decide (¬idx < 3 - 1))))) :=
  clean_prune_spec "g" ["a", "g", "b"] [⟨"g", 3⟩, ⟨"g", 5⟩]
    [some 0, some 1, some 2, none] 3 (by decide) (by decide) (by decide)

/-- C10: with no replicas configured, `cleanWAL` deletes nothing: the
minimum replicated index stays at its initial `-1`, the `min ≤ 0` early
return fires, and every file in the shadow WAL directory remains. -/
theorem cleanWAL_no_replicas (current : String) (files : List (Option Int)) :
    minReplicatedIndex current [] = -1 ∧ cleanWAL current [] files = files :=
  ⟨rfl, rfl⟩

/-- C5: `verify` returns a nonempty reason exactly in the enumerated cases
with exactly the enumerated strings, following the code's check order, and
any nonempty reason makes the Sync tick start a new generation rather than
report an error.  The eight implications cover all inputs, so together they
characterize `verify` completely. -/
theorem verify_reasons (pageSize : Nat) (v : VerifyInput) :
    (v.generation = "" →
      verify pageSize v = ⟨some "no generation exists", false⟩) ∧
    (v.generation ≠ "" → MaxIndex ≤ v.index →
      verify pageSize v = ⟨some "max index exceeded", false⟩) ∧
    (v.generation ≠ "" → v.index < MaxIndex → v.shadow = none →
      verify pageSize v = ⟨some "no shadow wal", false⟩) ∧
    (∀ s, v.generation ≠ "" → v.index < MaxIndex → v.shadow = some s →
      frameAlignN s.length pageSize < 32 →
      verify pageSize v = ⟨some "short shadow wal", false⟩) ∧
    (∀ s, v.generation ≠ "" → v.index < MaxIndex → v.shadow = some s →
      32 ≤ frameAlignN s.length pageSize →
      v.wal.length < frameAlignN s.length pageSize →
      verify pageSize v = ⟨some "wal truncated by another process", false⟩) ∧
    (∀ s, v.generation ≠ "" → v.index < MaxIndex → v.shadow = some s →
      frameAlignN s.length pageSize ≤ v.wal.length →
      frameAlignN s.length pageSize = 32 → v.wal.take 32 ≠ s.take 32 →
      verify pageSize v = ⟨some "wal header only, mismatched", true⟩) ∧
    (∀ s, v.generation ≠ "" → v.index < MaxIndex → v.shadow = some s →
      frameAlignN s.length pageSize ≤ v.wal.length →
      32 < frameAlignN s.length pageSize →
      (v.wal.drop (frameAlignN s.length pageSize - (pageSize + 24))).take (pageSize + 24) ≠
        (s.drop (frameAlignN s.length pageSize - (pageSize + 24))).take (pageSize + 24) →
      verify pageSize v =
        ⟨some "wal overwritten by another process", decide (v.wal.take 32 ≠ s.take 32)⟩) ∧
    (∀ s, v.generation ≠ "" → v.index < MaxIndex → v.shadow = some s →
      32 ≤ frameAlignN s.length pageSize →
      frameAlignN s.length pageSize ≤ v.wal.length →
      (frameAlignN s.length pageSize = 32 → v.wal.take 32 = s.take 32) →
      (32 < frameAlignN s.length pageSize →
        (v.wal.drop (frameAlignN s.length pageSize - (pageSize + 24))).take (pageSize + 24) =
          (s.drop (frameAlignN s.length pageSize - (pageSize + 24))).take (pageSize + 24)) →
      verify pageSize v = ⟨none, decide (v.wal.take 32 ≠ s.take 32)⟩) ∧
    ((verify pageSize v).reason ≠ none →
      syncReaction (verify pageSize v).reason = SyncAction.startNewGeneration) := by
  refine ⟨?_, ?_, ?_, ?_, ?_, ?_, ?_, ?_, ?_⟩
  · intro h1
    unfold verify
    rw [if_pos h1]
  · intro h1 h2
    unfold verify
    rw [if_neg h1, if_pos h2]
  · intro h1 h2 h3
    unfold verify
    rw [if_neg h1, if_neg (by omega), h3]
  · intro s h1 h2 h3 h4
    unfold verify
    rw [if_neg h1, if_neg (by omega), h3]
    dsimp only
    rw [if_pos h4]
  · intro s h1 h2 h3 h4 h5
    unfold verify
    rw [if_neg h1, if_neg (by omega), h3]
    dsimp only
    rw [if_neg (by omega), if_pos h5]
  · intro s h1 h2 h3 h4 h5 h6
    unfold verify
    rw [if_neg h1, if_neg (by omega), h3]
    dsimp only
    rw [if_neg (by omega), if_neg (by omega), if_pos ⟨h5, h6⟩,
      decide_eq_true h6]
  · intro s h1 h2 h3 h4 h5 h6
    unfold verify
    rw [if_neg h1, if_neg (by omega), h3]
    dsimp only
    rw [if_neg (by omega), if_neg (by omega),
      if_neg (by intro hc; omega), if_pos ⟨h5, h6⟩]
  · intro s h1 h2 h3 h4 h5 h6 h7
    unfold verify
    rw [if_neg h1, if_neg (by omega), h3]
    dsimp only
    rw [if_neg (by omega), if_neg (by omega),
      if_neg (by intro hc; exact hc.2 (h6 hc.1)),
      if_neg (by intro hc; exact hc.2 (h7 hc.1))]
  · intro hne
    rcases hr : (verify pageSize v).reason with _ | r
    · exact absurd hr hne
    · rfl

/-- Witness for C5: with no generation pointer, verification reports
`no generation exists`; and with a header-only shadow matching the live WAL,
verification passes without restart. -/
theorem verify_reasons_witness :
    verify 4096 ⟨"", 0, [], none⟩ = ⟨some "no generation exists", false⟩ ∧
      verify 0 ⟨"gen0000000000000", 0, demoShadow, some demoShadow⟩ =
        ⟨none, decide (demoShadow.take 32 ≠ demoShadow.take 32)⟩ :=
  ⟨(verify_reasons 4096 ⟨"", 0, [], none⟩).1 rfl,
    (verify_reasons 0 ⟨"gen0000000000000", 0, demoShadow, some demoShadow⟩).2.2.2.2.2.2.2.1
      demoShadow (by decide) (by decide) rfl (by decide) (by decide)
      (fun _ => rfl) (fun _ => rfl)⟩

/-- C6: opening past the frame-aligned size of an existing segment fails
with the offset-too-high error; a reader opened exactly at the aligned end
(zero remaining bytes) is replaced by a reader on segment `index + 1` at
offset zero, or by end-of-stream when that segment does not exist yet. -/
theorem shadowWALReaderAt_spec (pageSize : Nat) (segSize : Int → Option Nat)
    (index offset : Int) :
    (∀ sz, segSize index = some sz → (frameAlignN sz pageSize : Int) < offset →
      ShadowWALReaderAt pageSize segSize index offset =
        Except.error ReaderErr.offsetTooHigh) ∧
    (∀ sz, segSize index = some sz → offset = (frameAlignN sz pageSize : Int) →
      (segSize (index + 1) = none →
        ShadowWALReaderAt pageSize segSize index offset = Except.error ReaderErr.eof) ∧
      (∀ sz2, segSize (index + 1) = some sz2 →
        ShadowWALReaderAt pageSize segSize index offset =
          Except.ok ⟨index + 1, 0, (frameAlignN sz2 pageSize : Int)⟩)) := by
  constructor
  · intro sz hsz hoff
    unfold ShadowWALReaderAt shadowWALReader
    rw [hsz]
    dsimp only
    rw [if_pos hoff]
  · intro sz hsz hoff
    constructor
    · intro hnext
      unfold ShadowWALReaderAt shadowWALReader
      rw [hsz, hnext]
      dsimp only
      rw [if_neg (by omega)]
      dsimp only
      rw [if_neg (by omega)]
    · intro sz2 hnext
      unfold ShadowWALReaderAt shadowWALReader
      rw [hsz, hnext]
      dsimp only
      rw [if_neg (by omega)]
      dsimp only
      rw [if_neg (by omega),
        if_neg (show ¬(frameAlignN sz2 pageSize : Int) < 0 by omega)]
      dsimp only
      rw [Int.sub_zero]

/-- Witness for C6 on a two-segment generation (raw sizes 56 and 32, page
size 0): offset 100 on segment 0 is past its aligned size 56; offset 56
exhausts segment 0 and rolls over to segment 1; offset 32 exhausts
segment 1 and surfaces end of stream because segment 2 is missing. -/
theorem shadowWALReaderAt_spec_witness :
    ShadowWALReaderAt 0 (fun i => if i = 0 then some 56 else if i = 1 then some 32 else none)
        0 100 = Except.error ReaderErr.offsetTooHigh ∧
      ShadowWALReaderAt 0 (fun i => if i = 0 then some 56 else if i = 1 then some 32 else none)
        0 56 = Except.ok ⟨1, 0, 32⟩ ∧
      ShadowWALReaderAt 0 (fun i => if i = 0 then some 56 else if i = 1 then some 32 else none)
        1 32 = Except.error ReaderErr.eof :=
  ⟨(shadowWALReaderAt_spec 0 _ 0 100).1 56 rfl (by decide),
    ((shadowWALReaderAt_spec 0 _ 0 56).2 56 rfl (by decide)).2 32 rfl,
    ((shadowWALReaderAt_spec 0 _ 1 32).2 32 rfl (by decide)).1 rfl⟩

/-- C9: `RestoreReplica` rejects its options before doing any work exactly
when the output path is empty, or a specific index is given without a
generation, or both a specific index and a nonzero timestamp are given;
`NewRestoreOptions` uses `math.MaxInt64` as the unset index sentinel. -/
theorem restore_validation_spec (opt : RestoreOptionsV) :
    (validateRestoreOptions opt ≠ none ↔
      (opt.outputPath = "" ∨
        (opt.index ≠ maxInt64 ∧ opt.generation = "") ∨
        (opt.index ≠ maxInt64 ∧ opt.timestamp ≠ none))) ∧
      NewRestoreOptions.index = maxInt64 := by
  refine ⟨?_, rfl⟩
  unfold validateRestoreOptions
  by_cases h1 : opt.outputPath = ""
  · simp [h1]
  · rw [if_neg h1]
    by_cases h2 : opt.generation = "" ∧ opt.index ≠ maxInt64
    · rw [if_pos h2]
      simp [h1]
      tauto
    · rw [if_neg h2]
      by_cases h3 : opt.index ≠ maxInt64 ∧ opt.timestamp ≠ none
      · rw [if_pos h3]
        simp [h1]
        tauto
      · rw [if_neg h3]
        simp [h1]
        tauto

end Litestream

